import Mathlib

/-!
Shallow embedding of the `conway` repository (Conway's Game of Life).

Source files embedded here: `src/grid.rs` (Cell, Grid, viewports, bounds,
pattern parsing, Display), `src/game.rs` (Game, tick, survives), and
`src/cell.rs` (the `FromStr` implementation for `Cell`).

Modelling conventions:
* `HashSet<Cell>` is modelled as `Finset Cell`; membership-style operations
  (`contains`, `insert`, `remove`, `clear`, union accumulation) are
  order-independent, and the one set-iterating numeric fold in the source
  (`Grid::calculate_bounds`) is embedded literally at the list level
  (`calculateBoundsList`) and proved order-independent, so the `Finset`-level
  definition below agrees with the source loop on every iteration order.
* `i64` coordinates are modelled as `ℤ` (claims under study never approach
  `±2^63`, and coordinate arithmetic in the source never overflows there);
  `u64` configuration fields are modelled as `Nat`, with the source's
  unsigned subtraction and the `as i64` cast modelled bit-faithfully by
  `u64sub` / `toI64`, because unsigned wraparound is observable in
  `viewport_centered`.
* `usize` string/byte indexing panics (`str::split_at` out of bounds,
  `usize` underflow) are modelled by returning `Option.none`; strings are
  modelled as `List Char` (so the byte-boundary panic of `split_at` on a
  multi-byte first character is not distinguished from its char-level
  behaviour, which is irrelevant to the claims below).
* Fallible operations return `Except`/`Option` values.
-/

namespace Conway

/-- A Cell is a point on the grid: `struct Cell(pub i64, pub i64)`. -/
abbrev Cell : Type := ℤ × ℤ

/-- Camera mode: `enum View { Centered, Fixed, Follow }`. -/
inductive View : Type
  | Centered : View
  | Fixed : View
  | Follow : View
deriving DecidableEq, Repr

/-- Configuration consumed by `Grid` (struct `GridConfig`; the struct itself
lives in the missing `config.rs` of this source version, but every field and
its type is forced by its uses in `grid.rs` and its construction sites in the
tests). `pattern` is a string, modelled as `List Char`. -/
structure GridConfig : Type where
  pattern : List Char
  char_alive : Char
  char_dead : Char
  view : View
  min_width : Nat
  min_height : Nat
  width : Nat
  height : Nat
deriving DecidableEq, Repr

/-- `struct Viewport { origin, scroll: Cell, width, height: u64 }`. -/
structure Viewport : Type where
  origin : Cell
  scroll : Cell
  width : Nat
  height : Nat
deriving DecidableEq, Repr

/-- `struct Grid { cells: HashSet<Cell>, opts: GridConfig, viewport: Viewport }`. -/
structure Grid : Type where
  cells : Finset Cell
  opts : GridConfig
  viewport : Viewport
deriving DecidableEq

/-! u64 arithmetic helpers. -/

/-- The modulus of `u64` arithmetic. -/
def U64MOD : Nat := 2 ^ 64

/-- Wrapping `u64` subtraction `a - b` (Rust release-mode semantics; in debug
mode the overflowing case panics instead, which for the claims below makes no
difference: the affected claim fails either way). -/
def u64sub (a b : Nat) : Nat := (a % U64MOD + U64MOD - b % U64MOD) % U64MOD

/-- Reinterpretation `as i64` of a `u64` value. -/
def toI64 (n : Nat) : ℤ :=
  if n % U64MOD < 2 ^ 63 then ((n % U64MOD : Nat) : ℤ)
  else ((n % U64MOD : Nat) : ℤ) - (U64MOD : ℤ)

/-- `fn split_int<T: Integer>(n: T) -> (T, T)`: `num_integer::div_rem` on a
primitive integer is Rust `/` and `%`, i.e. truncated division, so it is
embedded with `Int.tdiv` / `Int.tmod`. -/
def splitInt (n : ℤ) : ℤ × ℤ := (n.tdiv 2, n.tdiv 2 + n.tmod 2)

/-! The bounds scan of `Grid::calculate_bounds`, embedded literally: the
first cell produced by iteration initialises both corners, and every further
cell updates each axis through the source's `if x < x0 { } else if x > x1 { }`
chain. -/

/-- One iteration of the `calculate_bounds` loop body. -/
def boundsStep : Cell × Cell → Cell → Cell × Cell
  | ((x0, y0), (x1, y1)), (x, y) =>
    let xs := if x < x0 then (x, x1) else if x > x1 then (x0, x) else (x0, x1)
    let ys := if y < y0 then (y, y1) else if y > y1 then (y0, y) else (y0, y1)
    ((xs.1, ys.1), (xs.2, ys.2))

/-- `Grid::calculate_bounds` as the source writes it, over one concrete
iteration order of the cell set; the empty case returns the degenerate
`((0,0),(0,0))` box (`Default::default()`). -/
def calculateBoundsList : List Cell → Cell × Cell
  | [] => ((0, 0), (0, 0))
  | c :: rest => rest.foldl boundsStep (c, c)

/-- `Grid::calculate_bounds` as a function of the cell set: the componentwise
minimum and maximum corners of the live cells, `((0,0),(0,0))` when empty.
`calculateBoundsList` is proved below to compute exactly this on every
enumeration of the set, which is what licenses this order-free form for the
`HashSet` iteration of the source. -/
def Grid.calculateBounds (g : Grid) : Cell × Cell :=
  if h : g.cells.Nonempty then
    (((g.cells.image Prod.fst).min' (h.image _), (g.cells.image Prod.snd).min' (h.image _)),
     ((g.cells.image Prod.fst).max' (h.image _), (g.cells.image Prod.snd).max' (h.image _)))
  else ((0, 0), (0, 0))

/-- `Grid::natural_size`: `((x1 - x0 + 1) as u64, (y1 - y0 + 1) as u64)`.
The differences are always nonnegative (the max corner dominates the min
corner), so the `as u64` cast is value-preserving and modelled by `toNat`. -/
def Grid.naturalSize (g : Grid) : Nat × Nat :=
  let b := g.calculateBounds
  ((b.2.1 - b.1.1 + 1).toNat, (b.2.2 - b.1.2 + 1).toNat)

/-- `Grid::new(cells, opts)`: collect the cells, set the viewport origin from
the bounds, default zero viewport dimensions to the natural size, and raise
the configured minimum dimensions to at least the natural size. -/
def Grid.new (cells : List Cell) (opts : GridConfig) : Grid :=
  let g0 : Grid :=
    { cells := cells.toFinset
      opts := opts
      viewport :=
        { origin := (0, 0), scroll := (0, 0), width := opts.width, height := opts.height } }
  let b := g0.calculateBounds
  let width := (b.2.1 - b.1.1 + 1).toNat
  let height := (b.2.2 - b.1.2 + 1).toNat
  { g0 with
    viewport :=
      { origin := b.1
        scroll := (0, 0)
        width := if opts.width = 0 then width else opts.width
        height := if opts.height = 0 then height else opts.height }
    opts :=
      { opts with
        min_width := max opts.min_width width
        min_height := max opts.min_height height } }

/-- `Grid::adjacent_cells`: the 8 cells directly adjacent to `cell`, inserted
in the source's loop order (`dx` then `dy` from `-1` to `1`, skipping `(0,0)`).
The `&self` receiver is unused in the source. -/
def adjacentCells (c : Cell) : Finset Cell :=
  {(c.1 - 1, c.2 - 1), (c.1 - 1, c.2), (c.1 - 1, c.2 + 1),
   (c.1, c.2 - 1), (c.1, c.2 + 1),
   (c.1 + 1, c.2 - 1), (c.1 + 1, c.2), (c.1 + 1, c.2 + 1)}

/-- `Grid::is_alive`: set membership. -/
def Grid.isAlive (g : Grid) (c : Cell) : Bool := c ∈ g.cells

/-- `Grid::live_neighbors`: count the adjacent cells that are alive. -/
def Grid.liveNeighbors (g : Grid) (c : Cell) : Nat :=
  ((adjacentCells c).filter (fun d => g.isAlive d = true)).card

/-- `Grid::active_cells`: union over each live cell of itself and its
8 neighbors (`flat_map` of `adjacent_cells` plus the cell, collected). -/
def Grid.activeCells (g : Grid) : Finset Cell :=
  g.cells.biUnion (fun c => insert c (adjacentCells c))

/-- `Grid::is_empty`. -/
def Grid.isEmpty (g : Grid) : Bool := g.cells = ∅

/-- `Grid::set_alive`: insert, returning whether the cell was newly inserted. -/
def Grid.setAlive (g : Grid) (c : Cell) : Grid × Bool :=
  ({ g with cells := insert c g.cells }, !g.isAlive c)

/-- `Grid::set_dead`: remove, returning whether the cell was present. -/
def Grid.setDead (g : Grid) (c : Cell) : Grid × Bool :=
  ({ g with cells := g.cells.erase c }, g.isAlive c)

/-- `Grid::clear`. -/
def Grid.clear (g : Grid) : Grid := { g with cells := ∅ }

/-- `Grid::viewport_fixed`: origin shifted by scroll; far corner adds the
viewport dimensions (`width as i64`, `height as i64`). -/
def Grid.viewportFixed (g : Grid) : Cell × Cell :=
  let x0 := g.viewport.origin.1 + g.viewport.scroll.1
  let y0 := g.viewport.origin.2 + g.viewport.scroll.2
  ((x0, y0), (x0 + toI64 g.viewport.width, y0 + toI64 g.viewport.height))

/-- `Grid::viewport_centered`: the natural bounds, expanded by the split
deficits. `cmp::max(0, a - b)` on `u64` is the identity on the (possibly
wrapped) unsigned difference, so it is embedded as `u64sub` directly, then
cast `as i64` by `toI64`. -/
def Grid.viewportCentered (g : Grid) : Cell × Cell :=
  let wh := g.naturalSize
  let dx : ℤ := toI64 (u64sub g.opts.min_width wh.1)
  let dy : ℤ := toI64 (u64sub g.opts.min_height wh.2)
  let b := g.calculateBounds
  let sx := splitInt dx
  let sy := splitInt dy
  ((b.1.1 - sx.1, b.1.2 - sy.1), (b.2.1 + sx.2, b.2.2 + sy.2))

/-- `Grid::viewport`: dispatch on the camera mode; the `Follow` arm is
`unimplemented!()` in the source, modelled as `none`. -/
def Grid.viewportOpt (g : Grid) : Option (Cell × Cell) :=
  match g.opts.view with
  | View.Fixed => some g.viewportFixed
  | View.Centered => some g.viewportCentered
  | View.Follow => none

/-! Rendering (`impl fmt::Display for Grid`). -/

/-- The inclusive integer range `a..=b` as a list (empty when `b < a`). -/
def intRange (a b : ℤ) : List ℤ :=
  (List.range (b + 1 - a).toNat).map (fun i : ℕ => a + (i : ℤ))

/-- The `Display` loop over an explicit rectangle: one row per `y`, one glyph
per `x` (`char_alive` when the cell is alive, else `char_dead`), each row
terminated by `'\n'`. -/
def renderRect (g : Grid) (rect : Cell × Cell) : List Char :=
  ((intRange rect.1.2 rect.2.2).map (fun y =>
    (intRange rect.1.1 rect.2.1).map (fun x =>
      if g.isAlive (x, y) = true then g.opts.char_alive else g.opts.char_dead)
    ++ ['\n'])).flatten

/-- `impl fmt::Display for Grid`: render the rectangle `self.viewport()`;
`none` models the `unimplemented!()` panic of the `Follow` arm. -/
def Grid.display (g : Grid) : Option (List Char) := g.viewportOpt.map (renderRect g)

/-! Pattern parsing (`Grid::from_config` and `impl FromStr for Grid`). -/

/-- The Rust `char::is_whitespace` test (Lean's `Char.isWhitespace`; the
source uses the Unicode property, which agrees on every character the claims
touch). -/
def isWS (c : Char) : Bool := c.isWhitespace

/-- `str::trim`: drop whitespace from both ends. -/
def trimList (s : List Char) : List Char :=
  ((s.dropWhile isWS).reverse.dropWhile isWS).reverse

/-- Split a character list at every occurrence of `sep` (the separators are
consumed; a list without `sep` yields itself as a single segment). Models both
`str::split('\n')` inside `str::lines` and `str::split(',')`. -/
def splitOnChar (sep : Char) : List Char → List (List Char)
  | [] => [[]]
  | c :: rest =>
    if c = sep then [] :: splitOnChar sep rest
    else
      match splitOnChar sep rest with
      | [] => [[c]]
      | h :: t => (c :: h) :: t

/-- Split at `'\n'` — the segment structure underlying `str::lines`. -/
def splitLines (s : List Char) : List (List Char) := splitOnChar '\n' s

/-- Strip one trailing `'\r'` (the `\r\n` line-terminator handling of
`str::lines`). -/
def stripCR (l : List Char) : List Char :=
  if l.getLast? = some '\r' then l.dropLast else l

/-- `str::lines`: split at `'\n'`, with a final line ending optional (a
trailing empty segment is dropped) and a `'\r'` stripped from the end of every
terminated line. -/
def rustLines (s : List Char) : List (List Char) :=
  let parts := splitLines s
  let body := (parts.dropLast).map stripCR
  match parts.getLast? with
  | some [] => body
  | some l => body ++ [l]
  | none => body

/-- The line sequence `config.pattern.trim().lines().filter(|line|
!line.starts_with('#'))` that `Grid::from_config` scans. -/
def processedLines (cfg : GridConfig) : List (List Char) :=
  (rustLines (trimList cfg.pattern)).filter (fun l => !(l.head? = some '#' : Bool))

/-- The inner loop of `Grid::from_config` over one line: each `char_alive`
glyph at column `x` yields `Cell(x as i64, y as i64)`, each `char_dead` glyph
is skipped, and any other character aborts the parse. The error payload is the
offending character (the source wraps it in the message
`unknown character: '{ch}'`). -/
def parseRow (alive dead : Char) (y : Nat) : List Char → Nat → Except Char (List Cell)
  | [], _ => Except.ok []
  | ch :: rest, x =>
    if ch = alive then
      match parseRow alive dead y rest (x + 1) with
      | Except.ok cs => Except.ok (((x : ℤ), (y : ℤ)) :: cs)
      | Except.error e => Except.error e
    else if ch = dead then parseRow alive dead y rest (x + 1)
    else Except.error ch

/-- The outer loop of `Grid::from_config`: rows are enumerated after the
comment filter, so `y` counts only non-skipped lines. -/
def parseRows (alive dead : Char) : List (List Char) → Nat → Except Char (List Cell)
  | [], _ => Except.ok []
  | l :: rest, y =>
    match parseRow alive dead y l 0 with
    | Except.error e => Except.error e
    | Except.ok cs =>
      match parseRows alive dead rest (y + 1) with
      | Except.error e => Except.error e
      | Except.ok cs2 => Except.ok (cs ++ cs2)

/-- `Grid::from_config`: scan the processed pattern lines and build the grid
with `Grid::new` on success; the first unknown character aborts the whole
parse with an error (no partial grid). -/
def Grid.fromConfig (cfg : GridConfig) : Except Char Grid :=
  match parseRows cfg.char_alive cfg.char_dead (processedLines cfg) 0 with
  | Except.error e => Except.error e
  | Except.ok cs => Except.ok (Grid.new cs cfg)

/-! Cell parsing (`impl FromStr for Cell` in `src/cell.rs`). -/

/-- The error values of the `Cell` parser; each constructor stands for one
`AppError::ParseCell(..)` message of the source (`unexpected character '{c}'`,
`missing value for x` / `missing value for y`, and the forwarded
`ParseIntError` message). -/
inductive CellErr : Type
  | unexpected : Char → CellErr
  | missingX : CellErr
  | missingY : CellErr
  | intErr : CellErr
deriving DecidableEq, Repr

/-- `i64::from_str` (`str::parse::<i64>`): an optional single sign followed by
at least one ASCII digit, with the value required to fit in `i64`. -/
def parseI64 (s : List Char) : Option ℤ :=
  let sd : ℤ × List Char :=
    match s with
    | '+' :: rest => (1, rest)
    | '-' :: rest => (-1, rest)
    | rest => (1, rest)
  if sd.2 = [] then none
  else if sd.2.all (fun c => c.isDigit) then
    let v : ℤ := sd.1 * ((sd.2.foldl (fun acc c => acc * 10 + (c.toNat - '0'.toNat)) 0 : Nat) : ℤ)
    if -(2 ^ 63) ≤ v ∧ v ≤ 2 ^ 63 - 1 then some v else none
  else none

/-- `impl FromStr for Cell` (`src/cell.rs`): trim, split off the parentheses
with `split_at`, split the interior at `','`, and parse each trimmed
coordinate as `i64`. `none` models a panic: `split_at(1)` on an empty trimmed
string is a byte-index-out-of-bounds panic, and `rest.len() - 1` underflows
`usize` when only the opening parenthesis is present (debug mode panics on
the underflow itself; release mode wraps and then `split_at` panics on the
out-of-range index — a panic either way). -/
def cellFromStr (s : List Char) : Option (Except CellErr Cell) :=
  match trimList s with
  | [] => none
  | c :: rest =>
    if c ≠ '(' then some (Except.error (CellErr.unexpected c))
    else
      match rest.getLast? with
      | none => none
      | some lastc =>
        if lastc ≠ ')' then some (Except.error (CellErr.unexpected lastc))
        else
          match splitOnChar ',' rest.dropLast with
          | [] => some (Except.error CellErr.missingX)
          | xs :: tail =>
            match parseI64 (trimList xs) with
            | none => some (Except.error CellErr.intErr)
            | some x =>
              match tail.head? with
              | none => some (Except.error CellErr.missingY)
              | some ys =>
                match parseI64 (trimList ys) with
                | none => some (Except.error CellErr.intErr)
                | some y => some (Except.ok (x, y))

/-! The simulation (`src/game.rs`). -/

/-- Configuration consumed by `Game` (struct `GameConfig`; like `GridConfig`
it lives in the missing `config.rs`, with every field forced by its uses in
`game.rs`). `tick_delay` is a `Duration`, modelled in milliseconds; it only
paces the frame iterator and enters no claim. -/
structure GameConfig : Type where
  char_alive : Char
  char_dead : Char
  view : View
  min_width : Nat
  min_height : Nat
  width : Nat
  height : Nat
  tick_delay : Nat
deriving DecidableEq, Repr

/-- `struct Game { grid, swap: Grid, opts: GameConfig, viewport: Viewport }`. -/
structure Game : Type where
  grid : Grid
  swap : Grid
  opts : GameConfig
  viewport : Viewport
deriving DecidableEq

/-- `Game::new(grid, opts)`: the scratch grid is a cleared clone of `grid`;
the minimum dimensions are raised to at least the natural size of `grid`, and
the viewport defaults zero dimensions to the natural size. -/
def Game.new (grid : Grid) (opts : GameConfig) : Game :=
  let swap := grid.clear
  let b := grid.calculateBounds
  let width := (b.2.1 - b.1.1 + 1).toNat
  let height := (b.2.2 - b.1.2 + 1).toNat
  { grid := grid
    swap := swap
    opts :=
      { opts with
        min_width := max opts.min_width width
        min_height := max opts.min_height height }
    viewport :=
      { origin := b.1
        scroll := (0, 0)
        width := if opts.width = 0 then width else opts.width
        height := if opts.height = 0 then height else opts.height } }

/-- `Game::is_over`: true iff the current grid is empty. -/
def Game.isOver (g : Game) : Bool := g.grid.isEmpty

/-- `Game::survives`: the B3/S23 rule evaluated against the current grid. -/
def Game.survives (g : Game) (c : Cell) : Bool :=
  let n := g.grid.liveNeighbors c
  if g.grid.isAlive c = true then
    if n = 2 ∨ n = 3 then true else false
  else
    if n = 3 then true else false

/-- `Game::tick`: insert every surviving active cell into the scratch grid,
clear the current grid, and swap the two grids. -/
def Game.tick (g : Game) : Game :=
  let newSwap : Grid :=
    { g.swap with
      cells := g.swap.cells ∪ g.grid.activeCells.filter (fun c => g.survives c = true) }
  { g with grid := newSwap, swap := g.grid.clear }

/-! Concrete configurations used by the examples below (the claims never
depend on the default configuration values, so explicit records are used). -/

/-- A concrete grid configuration: standard glyphs, centered view, no
minimum or fixed dimensions. -/
def cfgA : GridConfig :=
  { pattern := [], char_alive := 'x', char_dead := '.', view := View.Centered,
    min_width := 0, min_height := 0, width := 0, height := 0 }

/-- A concrete game configuration matching `cfgA`. -/
def goptsA : GameConfig :=
  { char_alive := 'x', char_dead := '.', view := View.Centered,
    min_width := 0, min_height := 0, width := 0, height := 0, tick_delay := 0 }

/-- The blinker game of the spec's test scenario: live set
`{(1,0),(1,1),(1,2)}`. -/
def blinkerGame : Game := Game.new (Grid.new [(1, 0), (1, 1), (1, 2)] cfgA) goptsA

/-! Basic facts about adjacency, liveness and active cells. -/

/-- Membership in the adjacency set is exactly "distinct and within the
surrounding 3×3 box", i.e. Chebyshev distance exactly 1. -/
lemma mem_adjacentCells (c d : Cell) :
    d ∈ adjacentCells c ↔
      d ≠ c ∧ c.1 - 1 ≤ d.1 ∧ d.1 ≤ c.1 + 1 ∧ c.2 - 1 ≤ d.2 ∧ d.2 ≤ c.2 + 1 := by
  obtain ⟨cx, cy⟩ := c
  obtain ⟨dx, dy⟩ := d
  simp only [adjacentCells, Finset.mem_insert, Finset.mem_singleton, Prod.mk.injEq, ne_eq]
  omega

/-- Adjacency is symmetric. -/
lemma mem_adjacentCells_comm (c d : Cell) :
    d ∈ adjacentCells c ↔ c ∈ adjacentCells d := by
  obtain ⟨cx, cy⟩ := c
  obtain ⟨dx, dy⟩ := d
  rw [mem_adjacentCells, mem_adjacentCells]
  simp only [Prod.mk.injEq, ne_eq]
  omega

/-- Liveness as plain membership. -/
lemma isAlive_iff (g : Grid) (c : Cell) : g.isAlive c = true ↔ c ∈ g.cells := by
  simp [Grid.isAlive]

/-- Membership in the active-cell set. -/
lemma mem_activeCells (g : Grid) (c : Cell) :
    c ∈ g.activeCells ↔ ∃ a ∈ g.cells, c = a ∨ c ∈ adjacentCells a := by
  simp [Grid.activeCells]

/-- A cell outside `active_cells()` is dead and has no live neighbors. -/
lemma not_active_dead_and_isolated (g : Grid) (c : Cell) (h : c ∉ g.activeCells) :
    g.isAlive c = false ∧ g.liveNeighbors c = 0 := by
  have hdead : c ∉ g.cells := by
    intro hc
    exact h ((mem_activeCells g c).2 ⟨c, hc, Or.inl rfl⟩)
  refine ⟨decide_eq_false hdead, ?_⟩
  rw [Grid.liveNeighbors, Finset.card_eq_zero, Finset.filter_eq_empty_iff]
  intro d hd hAlive
  have hdc : d ∈ g.cells := (isAlive_iff g d).1 hAlive
  exact h ((mem_activeCells g c).2 ⟨d, hdc, Or.inr ((mem_adjacentCells_comm c d).1 hd)⟩)

/-- A cell outside the active set cannot survive: it is dead with zero live
neighbors, and the B3 branch demands exactly three. -/
lemma survives_false_of_not_active (g : Game) (c : Cell)
    (h : c ∉ g.grid.activeCells) : g.survives c = false := by
  obtain ⟨h1, h2⟩ := not_active_dead_and_isolated g.grid c h
  simp [Game.survives, h1, h2]

/-- The cell set produced by one tick. -/
lemma tick_grid_cells (g : Game) :
    g.tick.grid.cells
      = g.swap.cells ∪ g.grid.activeCells.filter (fun c => g.survives c = true) := rfl

/-- The scratch set produced by one tick. -/
lemma tick_swap_cells (g : Game) : g.tick.swap.cells = ∅ := rfl

/-- Two grids with equal fields are equal. -/
lemma gridEqOfFields {a b : Grid} (h1 : a.cells = b.cells)
    (h2 : a.opts = b.opts) (h3 : a.viewport = b.viewport) : a = b := by
  cases a
  cases b
  simp_all

/-- Two games with equal fields are equal. -/
lemma gameEqOfFields {a b : Game} (h1 : a.grid = b.grid)
    (h2 : a.swap = b.swap) (h3 : a.opts = b.opts) (h4 : a.viewport = b.viewport) : a = b := by
  cases a
  cases b
  simp_all

/-! Claim theorems. -/

/-- C1: for every game whose scratch grid is empty (the documented state of
every game at rest), `tick()` computes exactly the B3/S23 next generation:
after `tick()` a cell is live iff `survives` held for it in the pre-tick grid
— for every coordinate of the lattice, not merely for the active cells the
loop visits, which is exactly the claim that evaluating `survives` over
`active_cells()` equals evaluating it over every coordinate. In particular
one tick of the blinker `{(1,0),(1,1),(1,2)}` yields exactly
`{(0,1),(1,1),(2,1)}`. -/
theorem c1_tick_is_exact_b3s23_next_generation :
    (∀ g : Game, g.swap.cells = ∅ →
      ∀ c : Cell, c ∈ g.tick.grid.cells ↔ g.survives c = true) ∧
    blinkerGame.tick.grid.cells = ({(0, 1), (1, 1), (2, 1)} : Finset Cell) := by
  constructor
  · intro g hswap c
    rw [tick_grid_cells, hswap, Finset.empty_union, Finset.mem_filter]
    constructor
    · exact fun h => h.2
    · intro hs
      refine ⟨?_, hs⟩
      by_contra hactive
      rw [survives_false_of_not_active g c hactive] at hs
      exact Bool.false_ne_true hs
  · decide

/-- C1 witness: the general statement applied to the blinker game at cell
`(0,1)`, whose scratch grid is empty by construction. -/
theorem c1_witness :
    ((0, 1) : Cell) ∈ blinkerGame.tick.grid.cells ↔ blinkerGame.survives (0, 1) = true :=
  c1_tick_is_exact_b3s23_next_generation.1 blinkerGame (by decide) (0, 1)

/-- C2: `survives` is the canonical B3/S23 rule — with
`n = live_neighbors(c)`, a live cell survives iff `n ∈ {2,3}` and a dead cell
becomes alive iff `n = 3` — and `live_neighbors(c)` counts exactly the live
members of the 8-cell Moore neighborhood of `c` (the cells other than `c`
within the surrounding 3×3 box). -/
theorem c2_survives_is_b3s23_rule :
    ∀ (g : Game) (c : Cell),
      (g.survives c = true ↔
        ((g.grid.isAlive c = true ∧
            (g.grid.liveNeighbors c = 2 ∨ g.grid.liveNeighbors c = 3)) ∨
         (g.grid.isAlive c = false ∧ g.grid.liveNeighbors c = 3))) ∧
      g.grid.liveNeighbors c =
        (g.grid.cells.filter (fun d =>
          d ≠ c ∧ c.1 - 1 ≤ d.1 ∧ d.1 ≤ c.1 + 1 ∧ c.2 - 1 ≤ d.2 ∧ d.2 ≤ c.2 + 1)).card := by
  intro g c
  constructor
  · cases halive : g.grid.isAlive c <;> simp [Game.survives, halive]
  · rw [Grid.liveNeighbors]
    congr 1
    ext d
    simp only [Finset.mem_filter, mem_adjacentCells, isAlive_iff]
    tauto

/-- C6: the scratch grid is empty immediately after `Game::new` (it is a
cleared clone of the initial grid), and whenever it is empty before a
`tick()` it is empty again after (in fact `tick()` unconditionally leaves the
old, cleared current grid as the new scratch). -/
theorem c6_scratch_empty_invariant :
    (∀ (grid : Grid) (opts : GameConfig), (Game.new grid opts).swap.cells = ∅) ∧
    (∀ g : Game, g.swap.cells = ∅ → g.tick.swap.cells = ∅) := by
  exact ⟨fun _ _ => rfl, fun g _ => tick_swap_cells g⟩

/-- C6 witness: both parts at the blinker game. -/
theorem c6_witness :
    (Game.new (Grid.new [(1, 0), (1, 1), (1, 2)] cfgA) goptsA).swap.cells = ∅ ∧
      blinkerGame.tick.swap.cells = ∅ :=
  ⟨c6_scratch_empty_invariant.1 (Grid.new [(1, 0), (1, 1), (1, 2)] cfgA) goptsA,
   c6_scratch_empty_invariant.2 blinkerGame (by decide)⟩

/-- C7: `is_over()` holds iff the current grid has no live cells; a game
constructed from zero live cells is over immediately, before any tick; and
the Over state is terminal: when the game is over (and the scratch grid is in
its invariant empty state) `tick()` leaves the grid empty, keeps the game
over, and — when the scratch is the cleared clone `Game::new` and `tick()`
maintain — is a complete no-op on the game state. `tick` is a total
function, so it never fails. -/
theorem c7_is_over_iff_empty_and_terminal :
    (∀ g : Game, g.isOver = true ↔ g.grid.cells = ∅) ∧
    (∀ (opts : GridConfig) (gopts : GameConfig),
      (Game.new (Grid.new [] opts) gopts).isOver = true) ∧
    (∀ g : Game, g.swap.cells = ∅ → g.isOver = true →
      g.tick.grid.cells = ∅ ∧ g.tick.isOver = true ∧
        (g.swap = g.grid.clear → g.tick = g)) := by
  refine ⟨?_, ?_, ?_⟩
  · intro g
    simp [Game.isOver, Grid.isEmpty]
  · intro opts gopts
    simp [Game.new, Game.isOver, Grid.new, Grid.isEmpty]
  · intro g hswap hover
    have hcells : g.grid.cells = ∅ := by simpa [Game.isOver, Grid.isEmpty] using hover
    have hactive : g.grid.activeCells = ∅ := by
      simp [Grid.activeCells, hcells]
    have hgrid : g.tick.grid.cells = ∅ := by
      rw [tick_grid_cells, hswap, hactive]
      simp
    refine ⟨hgrid, by simp [Game.isOver, Grid.isEmpty, hgrid], ?_⟩
    intro hrel
    have hgridEq : g.tick.grid = g.grid := by
      apply gridEqOfFields
      · rw [tick_grid_cells, hswap, hactive, hcells]
        simp
      · show g.swap.opts = g.grid.opts
        rw [hrel]
        rfl
      · show g.swap.viewport = g.grid.viewport
        rw [hrel]
        rfl
    have hswapEq : g.tick.swap = g.swap := by
      show g.grid.clear = g.swap
      rw [hrel]
    exact gameEqOfFields hgridEq hswapEq rfl rfl

/-- C7 witness: a game built from zero live cells is over, and ticking it is
a complete no-op. -/
theorem c7_witness :
    (Game.new (Grid.new [] cfgA) goptsA).tick = Game.new (Grid.new [] cfgA) goptsA :=
  (c7_is_over_iff_empty_and_terminal.2.2 (Game.new (Grid.new [] cfgA) goptsA)
    (by decide) (by decide)).2.2 (by decide)

/-! The bounds scan: order-independence and correctness (for C9, and reused
by the viewport claims). -/

/-- One step of the scan is exactly "componentwise min into the near corner,
componentwise max into the far corner", provided the accumulator is already
ordered (near ≤ far on each axis) — the `else if` chain skips the max update
when the min update fires, which is harmless exactly because the accumulator
is ordered. -/
lemma boundsStep_eq (a b c : Cell) (hx : a.1 ≤ b.1) (hy : a.2 ≤ b.2) :
    boundsStep (a, b) c = ((min a.1 c.1, min a.2 c.2), (max b.1 c.1, max b.2 c.2)) := by
  obtain ⟨ax, ay⟩ := a
  obtain ⟨bx, by'⟩ := b
  obtain ⟨cx, cy⟩ := c
  simp only [boundsStep, Prod.mk.injEq]
  split_ifs <;> simp_all <;> omega

/-- The scan's fold computes the componentwise running minima and maxima of
the traversed cells, from any ordered accumulator. -/
lemma foldl_boundsStep (l : List Cell) :
    ∀ a b : Cell, a.1 ≤ b.1 → a.2 ≤ b.2 →
      l.foldl boundsStep (a, b)
        = ((l.foldl (fun m c => min m c.1) a.1, l.foldl (fun m c => min m c.2) a.2),
           (l.foldl (fun m c => max m c.1) b.1, l.foldl (fun m c => max m c.2) b.2)) := by
  induction l with
  | nil => intro a b _ _; rfl
  | cons c rest ih =>
    intro a b hx hy
    rw [List.foldl_cons, boundsStep_eq a b c hx hy,
      ih (min a.1 c.1, min a.2 c.2) (max b.1 c.1, max b.2 c.2)
        (by omega) (by omega)]
    rfl

/-- A min-fold is a lower bound of its seed. -/
lemma foldl_min_le_init (f : Cell → ℤ) (l : List Cell) :
    ∀ a : ℤ, l.foldl (fun m c => min m (f c)) a ≤ a := by
  induction l with
  | nil => intro a; exact le_refl a
  | cons c rest ih =>
    intro a
    calc rest.foldl (fun m c => min m (f c)) (min a (f c)) ≤ min a (f c) := ih _
    _ ≤ a := min_le_left _ _

/-- A min-fold is a lower bound of every traversed value. -/
lemma foldl_min_le_mem (f : Cell → ℤ) (l : List Cell) :
    ∀ a : ℤ, ∀ x ∈ l, l.foldl (fun m c => min m (f c)) a ≤ f x := by
  induction l with
  | nil => intro a x hx; cases hx
  | cons c rest ih =>
    intro a x hx
    rcases List.mem_cons.1 hx with h | h
    · subst h
      calc rest.foldl (fun m c => min m (f c)) (min a (f x)) ≤ min a (f x) :=
        foldl_min_le_init f rest _
      _ ≤ f x := min_le_right _ _
    · exact ih _ x h

/-- A min-fold returns its seed or a traversed value. -/
lemma foldl_min_mem (f : Cell → ℤ) (l : List Cell) :
    ∀ a : ℤ, l.foldl (fun m c => min m (f c)) a = a ∨
      ∃ x ∈ l, l.foldl (fun m c => min m (f c)) a = f x := by
  induction l with
  | nil => intro a; exact Or.inl rfl
  | cons c rest ih =>
    intro a
    rcases ih (min a (f c)) with h | ⟨x, hx, hfx⟩
    · rw [List.foldl_cons, h]
      rcases min_cases a (f c) with ⟨h1, _⟩ | ⟨h1, _⟩
      · exact Or.inl h1
      · exact Or.inr ⟨c, List.mem_cons_self c rest, h1⟩
    · exact Or.inr ⟨x, List.mem_cons_of_mem c hx, by rw [List.foldl_cons]; exact hfx⟩

/-- A max-fold is an upper bound of its seed. -/
lemma foldl_max_ge_init (f : Cell → ℤ) (l : List Cell) :
    ∀ a : ℤ, a ≤ l.foldl (fun m c => max m (f c)) a := by
  induction l with
  | nil => intro a; exact le_refl a
  | cons c rest ih =>
    intro a
    calc a ≤ max a (f c) := le_max_left _ _
    _ ≤ rest.foldl (fun m c => max m (f c)) (max a (f c)) := ih _

/-- A max-fold is an upper bound of every traversed value. -/
lemma foldl_max_ge_mem (f : Cell → ℤ) (l : List Cell) :
    ∀ a : ℤ, ∀ x ∈ l, f x ≤ l.foldl (fun m c => max m (f c)) a := by
  induction l with
  | nil => intro a x hx; cases hx
  | cons c rest ih =>
    intro a x hx
    rcases List.mem_cons.1 hx with h | h
    · subst h
      calc f x ≤ max a (f x) := le_max_right _ _
      _ ≤ rest.foldl (fun m c => max m (f c)) (max a (f x)) := foldl_max_ge_init f rest _
    · exact ih _ x h

/-- A max-fold returns its seed or a traversed value. -/
lemma foldl_max_mem (f : Cell → ℤ) (l : List Cell) :
    ∀ a : ℤ, l.foldl (fun m c => max m (f c)) a = a ∨
      ∃ x ∈ l, l.foldl (fun m c => max m (f c)) a = f x := by
  induction l with
  | nil => intro a; exact Or.inl rfl
  | cons c rest ih =>
    intro a
    rcases ih (max a (f c)) with h | ⟨x, hx, hfx⟩
    · rw [List.foldl_cons, h]
      rcases max_cases a (f c) with ⟨h1, _⟩ | ⟨h1, _⟩
      · exact Or.inl h1
      · exact Or.inr ⟨c, List.mem_cons_self c rest, h1⟩
    · exact Or.inr ⟨x, List.mem_cons_of_mem c hx, by rw [List.foldl_cons]; exact hfx⟩

/-- A min-fold seeded with the head computes the `Finset` minimum of the
projected values, for any set enumerated by the list. -/
lemma foldl_min_eq_minF (f : Cell → ℤ) (c : Cell) (rest : List Cell)
    (s : Finset Cell) (hs : ∀ a, a ∈ s ↔ a = c ∨ a ∈ rest) (hne : (s.image f).Nonempty) :
    rest.foldl (fun m x => min m (f x)) (f c) = (s.image f).min' hne := by
  apply le_antisymm
  · apply Finset.le_min'
    intro y hy
    obtain ⟨a, ha, rfl⟩ := Finset.mem_image.1 hy
    rcases (hs a).1 ha with rfl | h
    · exact foldl_min_le_init f rest (f a)
    · exact foldl_min_le_mem f rest (f c) a h
  · apply Finset.min'_le
    rcases foldl_min_mem f rest (f c) with h | ⟨x, hx, h⟩
    · rw [h]
      exact Finset.mem_image_of_mem f ((hs c).2 (Or.inl rfl))
    · rw [h]
      exact Finset.mem_image_of_mem f ((hs x).2 (Or.inr hx))

/-- A max-fold seeded with the head computes the `Finset` maximum of the
projected values, for any set enumerated by the list. -/
lemma foldl_max_eq_maxF (f : Cell → ℤ) (c : Cell) (rest : List Cell)
    (s : Finset Cell) (hs : ∀ a, a ∈ s ↔ a = c ∨ a ∈ rest) (hne : (s.image f).Nonempty) :
    rest.foldl (fun m x => max m (f x)) (f c) = (s.image f).max' hne := by
  apply le_antisymm
  · apply Finset.le_max'
    rcases foldl_max_mem f rest (f c) with h | ⟨x, hx, h⟩
    · rw [h]
      exact Finset.mem_image_of_mem f ((hs c).2 (Or.inl rfl))
    · rw [h]
      exact Finset.mem_image_of_mem f ((hs x).2 (Or.inr hx))
  · apply Finset.max'_le
    intro y hy
    obtain ⟨a, ha, rfl⟩ := Finset.mem_image.1 hy
    rcases (hs a).1 ha with rfl | h
    · exact foldl_max_ge_init f rest (f a)
    · exact foldl_max_ge_mem f rest (f c) a h

/-- The source scan, on any enumeration of a grid's cell set, computes the
order-free bounds of the embedding. -/
lemma calculateBoundsList_eq_grid (g : Grid) (l : List Cell)
    (hl : l.toFinset = g.cells) : calculateBoundsList l = g.calculateBounds := by
  cases l with
  | nil =>
    have : ¬ g.cells.Nonempty := by
      rw [← hl]
      simp
    rw [Grid.calculateBounds, dif_neg this]
    rfl
  | cons c rest =>
    have hne : g.cells.Nonempty := by
      rw [← hl]
      exact ⟨c, by simp⟩
    have hs : ∀ a, a ∈ g.cells ↔ a = c ∨ a ∈ rest := by
      intro a
      rw [← hl]
      simp
    rw [Grid.calculateBounds, dif_pos hne]
    rw [calculateBoundsList, foldl_boundsStep rest c c (le_refl _) (le_refl _)]
    refine Prod.ext (Prod.ext ?_ ?_) (Prod.ext ?_ ?_)
    · exact foldl_min_eq_minF (fun x => x.1) c rest g.cells hs (hne.image _)
    · exact foldl_min_eq_minF (fun x => x.2) c rest g.cells hs (hne.image _)
    · exact foldl_max_eq_maxF (fun x => x.1) c rest g.cells hs (hne.image _)
    · exact foldl_max_eq_maxF (fun x => x.2) c rest g.cells hs (hne.image _)

/-- C9: `calculate_bounds` returns the inclusive axis-aligned bounding box of
all live cells — every traversed cell lies inside the returned box and each
of the four corner coordinates is attained by some cell — with the degenerate
`((0,0),(0,0))` convention on an empty grid; the scan is independent of the
`HashSet` iteration order (it always agrees with the set-level bounds); and
on the live set `{(2,1),(-3,0),(-2,1),(-2,0)}` it returns near `(-3,0)` and
far `(2,1)`. -/
theorem c9_calculate_bounds_is_bounding_box :
    (calculateBoundsList [] = ((0, 0), (0, 0))) ∧
    (∀ l : List Cell, l ≠ [] →
      (∀ c ∈ l,
        (calculateBoundsList l).1.1 ≤ c.1 ∧ (calculateBoundsList l).1.2 ≤ c.2 ∧
          c.1 ≤ (calculateBoundsList l).2.1 ∧ c.2 ≤ (calculateBoundsList l).2.2) ∧
      (∃ c ∈ l, c.1 = (calculateBoundsList l).1.1) ∧
      (∃ c ∈ l, c.2 = (calculateBoundsList l).1.2) ∧
      (∃ c ∈ l, c.1 = (calculateBoundsList l).2.1) ∧
      (∃ c ∈ l, c.2 = (calculateBoundsList l).2.2)) ∧
    (∀ (g : Grid) (l : List Cell), l.toFinset = g.cells →
      calculateBoundsList l = g.calculateBounds) ∧
    (Grid.new [(2, 1), (-3, 0), (-2, 1), (-2, 0)] cfgA).calculateBounds
      = ((-3, 0), (2, 1)) := by
  refine ⟨rfl, ?_, calculateBoundsList_eq_grid, by decide⟩
  intro l hl
  obtain ⟨c, rest, rfl⟩ : ∃ c rest, l = c :: rest := by
    cases l with
    | nil => exact absurd rfl hl
    | cons c rest => exact ⟨c, rest, rfl⟩
  rw [calculateBoundsList, foldl_boundsStep rest c c (le_refl _) (le_refl _)]
  refine ⟨?_, ?_, ?_, ?_, ?_⟩
  · intro a ha
    rcases List.mem_cons.1 ha with rfl | h
    · exact ⟨foldl_min_le_init _ rest _, foldl_min_le_init _ rest _,
        foldl_max_ge_init _ rest _, foldl_max_ge_init _ rest _⟩
    · exact ⟨foldl_min_le_mem (fun x => x.1) rest _ a h,
        foldl_min_le_mem (fun x => x.2) rest _ a h,
        foldl_max_ge_mem (fun x => x.1) rest _ a h,
        foldl_max_ge_mem (fun x => x.2) rest _ a h⟩
  · rcases foldl_min_mem (fun x => x.1) rest c.1 with h | ⟨x, hx, h⟩
    · exact ⟨c, List.mem_cons_self c rest, h.symm⟩
    · exact ⟨x, List.mem_cons_of_mem c hx, h.symm⟩
  · rcases foldl_min_mem (fun x => x.2) rest c.2 with h | ⟨x, hx, h⟩
    · exact ⟨c, List.mem_cons_self c rest, h.symm⟩
    · exact ⟨x, List.mem_cons_of_mem c hx, h.symm⟩
  · rcases foldl_max_mem (fun x => x.1) rest c.1 with h | ⟨x, hx, h⟩
    · exact ⟨c, List.mem_cons_self c rest, h.symm⟩
    · exact ⟨x, List.mem_cons_of_mem c hx, h.symm⟩
  · rcases foldl_max_mem (fun x => x.2) rest c.2 with h | ⟨x, hx, h⟩
    · exact ⟨c, List.mem_cons_self c rest, h.symm⟩
    · exact ⟨x, List.mem_cons_of_mem c hx, h.symm⟩

/-- C9 witness: the bounding-box statement applied to the spec's example list
at the cell `(-2, 0)`. -/
theorem c9_witness :
    (calculateBoundsList [(2, 1), (-3, 0), (-2, 1), (-2, 0)]).1.1 ≤ (-2 : ℤ) ∧
      (calculateBoundsList [(2, 1), (-3, 0), (-2, 1), (-2, 0)]).1.2 ≤ (0 : ℤ) ∧
      (-2 : ℤ) ≤ (calculateBoundsList [(2, 1), (-3, 0), (-2, 1), (-2, 0)]).2.1 ∧
      (0 : ℤ) ≤ (calculateBoundsList [(2, 1), (-3, 0), (-2, 1), (-2, 0)]).2.2 :=
  (c9_calculate_bounds_is_bounding_box.2.1 [(2, 1), (-3, 0), (-2, 1), (-2, 0)]
    (by decide)).1 (-2, 0) (by decide)

/-! Facts about the set-level bounds, used by the viewport claims. -/

/-- Every live cell lies inside the computed bounds. -/
lemma calculateBounds_le (g : Grid) (h : g.cells.Nonempty) (c : Cell) (hc : c ∈ g.cells) :
    g.calculateBounds.1.1 ≤ c.1 ∧ g.calculateBounds.1.2 ≤ c.2 ∧
      c.1 ≤ g.calculateBounds.2.1 ∧ c.2 ≤ g.calculateBounds.2.2 := by
  rw [Grid.calculateBounds, dif_pos h]
  exact ⟨Finset.min'_le _ _ (Finset.mem_image_of_mem _ hc),
    Finset.min'_le _ _ (Finset.mem_image_of_mem _ hc),
    Finset.le_max' _ _ (Finset.mem_image_of_mem _ hc),
    Finset.le_max' _ _ (Finset.mem_image_of_mem _ hc)⟩

/-- Each corner coordinate of the bounds is attained by a live cell. -/
lemma calculateBounds_attained (g : Grid) (h : g.cells.Nonempty) :
    (∃ c ∈ g.cells, c.1 = g.calculateBounds.1.1) ∧
      (∃ c ∈ g.cells, c.2 = g.calculateBounds.1.2) ∧
      (∃ c ∈ g.cells, c.1 = g.calculateBounds.2.1) ∧
      (∃ c ∈ g.cells, c.2 = g.calculateBounds.2.2) := by
  rw [Grid.calculateBounds, dif_pos h]
  refine ⟨?_, ?_, ?_, ?_⟩
  · obtain ⟨c, hc, he⟩ := Finset.mem_image.1 (Finset.min'_mem (g.cells.image Prod.fst) (h.image _))
    exact ⟨c, hc, he⟩
  · obtain ⟨c, hc, he⟩ := Finset.mem_image.1 (Finset.min'_mem (g.cells.image Prod.snd) (h.image _))
    exact ⟨c, hc, he⟩
  · obtain ⟨c, hc, he⟩ := Finset.mem_image.1 (Finset.max'_mem (g.cells.image Prod.fst) (h.image _))
    exact ⟨c, hc, he⟩
  · obtain ⟨c, hc, he⟩ := Finset.mem_image.1 (Finset.max'_mem (g.cells.image Prod.snd) (h.image _))
    exact ⟨c, hc, he⟩

/-- The near corner is dominated by the far corner. -/
lemma calculateBounds_ordered (g : Grid) :
    g.calculateBounds.1.1 ≤ g.calculateBounds.2.1 ∧
      g.calculateBounds.1.2 ≤ g.calculateBounds.2.2 := by
  by_cases h : g.cells.Nonempty
  · obtain ⟨c, hc, he⟩ := (calculateBounds_attained g h).1
    obtain ⟨d, hd, he2⟩ := (calculateBounds_attained g h).2.1
    have h1 := calculateBounds_le g h c hc
    have h2 := calculateBounds_le g h d hd
    omega
  · rw [Grid.calculateBounds, dif_neg h]
    exact ⟨le_refl _, le_refl _⟩

/-- The natural size, read back as integers. -/
lemma naturalSize_int (g : Grid) :
    ((g.naturalSize.1 : ℤ) = g.calculateBounds.2.1 - g.calculateBounds.1.1 + 1) ∧
      ((g.naturalSize.2 : ℤ) = g.calculateBounds.2.2 - g.calculateBounds.1.2 + 1) := by
  obtain ⟨h1, h2⟩ := calculateBounds_ordered g
  rw [Grid.naturalSize]
  constructor <;> simp only [] <;> rw [Int.toNat_of_nonneg (by omega)]

/-- Under the no-underflow hypotheses (`b ≤ a`, `a` within `i64` range), the
wrapped difference cast `as i64` is the true difference. -/
lemma toI64_u64sub (a b : Nat) (hb : b ≤ a) (ha : a < 2 ^ 63) :
    toI64 (u64sub a b) = (a : ℤ) - (b : ℤ) := by
  have hM : (0 : Nat) < 2 ^ 64 := by norm_num
  have hmod : u64sub a b = a - b := by
    rw [u64sub, U64MOD]
    have h1 : a % 2 ^ 64 = a := Nat.mod_eq_of_lt (by omega)
    have h2 : b % 2 ^ 64 = b := Nat.mod_eq_of_lt (by omega)
    rw [h1, h2]
    have h3 : a + 2 ^ 64 - b = (a - b) + 2 ^ 64 := by omega
    rw [h3, Nat.add_mod_right]
    exact Nat.mod_eq_of_lt (by omega)
  rw [hmod, toI64, U64MOD]
  have h4 : (a - b) % 2 ^ 64 = a - b := Nat.mod_eq_of_lt (by omega)
  rw [if_pos (by omega)]
  rw [h4]
  omega

/-- `split_int` on a nonnegative argument, written with Euclidean division
(`tdiv`/`tmod` agree with `ediv`/`emod` there): the two halves are
nonnegative, ordered, and sum to the argument. -/
lemma splitInt_nonneg (d : ℤ) (hd : 0 ≤ d) :
    splitInt d = (d / 2, d / 2 + d % 2) ∧
      0 ≤ d / 2 ∧ d / 2 ≤ d / 2 + d % 2 ∧ d / 2 + (d / 2 + d % 2) = d := by
  rw [splitInt, Int.tdiv_eq_ediv hd (by norm_num), Int.tmod_eq_emod hd (by norm_num)]
  refine ⟨rfl, by omega, by omega, by omega⟩

/-- `viewport_centered` with its let-chain flattened. -/
lemma viewportCentered_eq (g : Grid) :
    g.viewportCentered =
      ((g.calculateBounds.1.1 - (splitInt (toI64 (u64sub g.opts.min_width g.naturalSize.1))).1,
        g.calculateBounds.1.2 - (splitInt (toI64 (u64sub g.opts.min_height g.naturalSize.2))).1),
       (g.calculateBounds.2.1 + (splitInt (toI64 (u64sub g.opts.min_width g.naturalSize.1))).2,
        g.calculateBounds.2.2 + (splitInt (toI64 (u64sub g.opts.min_height g.naturalSize.2))).2)) :=
  rfl

/-- C3 counterexample: the claim fails as stated. Start from the single live
cell `(0,0)` (construction raises `min_width` to the natural width 1) and
bring `(1,0)` to life: the natural width 2 now exceeds `min_width = 1`, the
unsigned deficit `min_width - w` wraps around, and the "expansion" shrinks
the rectangle to `((0,0),(0,0))`, which no longer contains the natural bounds
`((0,0),(1,0))` — refuting both "the resulting rectangle always contains the
natural bounds" and "when the natural width already meets or exceeds the
minimum, no expansion occurs on that axis". -/
theorem c3_counterexample :
    (((Grid.new [(0, 0)] cfgA).setAlive (1, 0)).1.cells.Nonempty) ∧
    ((Grid.new [(0, 0)] cfgA).setAlive (1, 0)).1.opts.min_width = 1 ∧
    ((Grid.new [(0, 0)] cfgA).setAlive (1, 0)).1.naturalSize.1 = 2 ∧
    ((Grid.new [(0, 0)] cfgA).setAlive (1, 0)).1.calculateBounds = ((0, 0), (1, 0)) ∧
    ((Grid.new [(0, 0)] cfgA).setAlive (1, 0)).1.viewportCentered = ((0, 0), (0, 0)) ∧
    ((Grid.new [(0, 0)] cfgA).setAlive (1, 0)).1.viewportCentered.2.1 <
      ((Grid.new [(0, 0)] cfgA).setAlive (1, 0)).1.calculateBounds.2.1 := by
  decide

/-- C3 (amended): for every non-empty grid whose natural size does not exceed
the configured minimums (as holds at construction time, where `Grid::new`
raises the minimums to at least the natural size) and whose minimums fit in
`i64`, the Centered viewport is the natural bounds expanded by the deficits
`dx = min_width - w`, `dy = min_height - h`, each split as
`(n/2, n/2 + n%2)` with the near corner moved outward by the first half and
the far corner by the second; consequently the rectangle contains the natural
bounds, and when the natural width (resp. height) equals the minimum no
expansion occurs on that axis. (As stated originally — quantifying over all
non-empty grids — the claim is false: when the natural size exceeds the
minimum the `u64` deficit wraps around and the rectangle shrinks; see the
counterexample.) -/
theorem c3_centered_viewport_amended :
    ∀ g : Grid, g.cells.Nonempty →
      g.naturalSize.1 ≤ g.opts.min_width → g.naturalSize.2 ≤ g.opts.min_height →
      g.opts.min_width < 2 ^ 63 → g.opts.min_height < 2 ^ 63 →
      (g.viewportCentered =
        ((g.calculateBounds.1.1 - ((g.opts.min_width : ℤ) - (g.naturalSize.1 : ℤ)) / 2,
          g.calculateBounds.1.2 - ((g.opts.min_height : ℤ) - (g.naturalSize.2 : ℤ)) / 2),
         (g.calculateBounds.2.1 + (((g.opts.min_width : ℤ) - (g.naturalSize.1 : ℤ)) / 2
            + ((g.opts.min_width : ℤ) - (g.naturalSize.1 : ℤ)) % 2),
          g.calculateBounds.2.2 + (((g.opts.min_height : ℤ) - (g.naturalSize.2 : ℤ)) / 2
            + ((g.opts.min_height : ℤ) - (g.naturalSize.2 : ℤ)) % 2)))) ∧
      (g.viewportCentered.1.1 ≤ g.calculateBounds.1.1 ∧
        g.viewportCentered.1.2 ≤ g.calculateBounds.1.2 ∧
        g.calculateBounds.2.1 ≤ g.viewportCentered.2.1 ∧
        g.calculateBounds.2.2 ≤ g.viewportCentered.2.2) ∧
      (g.naturalSize.1 = g.opts.min_width →
        g.viewportCentered.1.1 = g.calculateBounds.1.1 ∧
          g.viewportCentered.2.1 = g.calculateBounds.2.1) ∧
      (g.naturalSize.2 = g.opts.min_height →
        g.viewportCentered.1.2 = g.calculateBounds.1.2 ∧
          g.viewportCentered.2.2 = g.calculateBounds.2.2) := by
  intro g _ hw hh hmw hmh
  have hdx := toI64_u64sub g.opts.min_width g.naturalSize.1 hw hmw
  have hdy := toI64_u64sub g.opts.min_height g.naturalSize.2 hh hmh
  have hdx0 : (0 : ℤ) ≤ (g.opts.min_width : ℤ) - (g.naturalSize.1 : ℤ) := by
    have := hw
    omega
  have hdy0 : (0 : ℤ) ≤ (g.opts.min_height : ℤ) - (g.naturalSize.2 : ℤ) := by
    have := hh
    omega
  obtain ⟨hsx, hsx1, hsx2, hsx3⟩ := splitInt_nonneg _ hdx0
  obtain ⟨hsy, hsy1, hsy2, hsy3⟩ := splitInt_nonneg _ hdy0
  have hv : g.viewportCentered =
      ((g.calculateBounds.1.1 - ((g.opts.min_width : ℤ) - (g.naturalSize.1 : ℤ)) / 2,
        g.calculateBounds.1.2 - ((g.opts.min_height : ℤ) - (g.naturalSize.2 : ℤ)) / 2),
       (g.calculateBounds.2.1 + (((g.opts.min_width : ℤ) - (g.naturalSize.1 : ℤ)) / 2
          + ((g.opts.min_width : ℤ) - (g.naturalSize.1 : ℤ)) % 2),
        g.calculateBounds.2.2 + (((g.opts.min_height : ℤ) - (g.naturalSize.2 : ℤ)) / 2
          + ((g.opts.min_height : ℤ) - (g.naturalSize.2 : ℤ)) % 2))) := by
    rw [viewportCentered_eq g, hdx, hdy, hsx, hsy]
  refine ⟨hv, ?_, ?_, ?_⟩
  · rw [hv]
    simp only []
    omega
  · intro heq
    rw [hv]
    simp only []
    omega
  · intro heq
    rw [hv]
    simp only []
    omega

/-- C3 witness: the amended statement applied to the spec's worked example
(live cells `{(2,1),(-3,0),(-2,1),(-2,0)}`, minimums 7×7): containment of the
natural bounds. -/
theorem c3_witness :
    (Grid.new [(2, 1), (-3, 0), (-2, 1), (-2, 0)]
        { cfgA with min_width := 7, min_height := 7 }).viewportCentered.1.1 ≤
      (Grid.new [(2, 1), (-3, 0), (-2, 1), (-2, 0)]
        { cfgA with min_width := 7, min_height := 7 }).calculateBounds.1.1 ∧
    (Grid.new [(2, 1), (-3, 0), (-2, 1), (-2, 0)]
        { cfgA with min_width := 7, min_height := 7 }).viewportCentered.1.2 ≤
      (Grid.new [(2, 1), (-3, 0), (-2, 1), (-2, 0)]
        { cfgA with min_width := 7, min_height := 7 }).calculateBounds.1.2 ∧
    (Grid.new [(2, 1), (-3, 0), (-2, 1), (-2, 0)]
        { cfgA with min_width := 7, min_height := 7 }).calculateBounds.2.1 ≤
      (Grid.new [(2, 1), (-3, 0), (-2, 1), (-2, 0)]
        { cfgA with min_width := 7, min_height := 7 }).viewportCentered.2.1 ∧
    (Grid.new [(2, 1), (-3, 0), (-2, 1), (-2, 0)]
        { cfgA with min_width := 7, min_height := 7 }).calculateBounds.2.2 ≤
      (Grid.new [(2, 1), (-3, 0), (-2, 1), (-2, 0)]
        { cfgA with min_width := 7, min_height := 7 }).viewportCentered.2.2 :=
  (c3_centered_viewport_amended
    (Grid.new [(2, 1), (-3, 0), (-2, 1), (-2, 0)] { cfgA with min_width := 7, min_height := 7 })
    (by decide) (by decide) (by decide) (by decide) (by decide)).2.1

/-- C10: both constructors replace the configured minimum viewport dimensions
by the componentwise maximum of the request and the initial population's
natural bounding-box size; and any later Centered viewport computed with
those raised options (in a grid whose population has shrunk back within the
minimums — mutation never touches `opts`) spans exactly the raised minimum
width, which is at least the initial natural width, rather than the
originally requested minimum. -/
theorem c10_constructors_raise_min_dimensions :
    (∀ (cells : List Cell) (opts : GridConfig),
      (Grid.new cells opts).opts.min_width
          = max opts.min_width (Grid.new cells opts).naturalSize.1 ∧
        (Grid.new cells opts).opts.min_height
          = max opts.min_height (Grid.new cells opts).naturalSize.2) ∧
    (∀ (grid : Grid) (gopts : GameConfig),
      (Game.new grid gopts).opts.min_width = max gopts.min_width grid.naturalSize.1 ∧
        (Game.new grid gopts).opts.min_height = max gopts.min_height grid.naturalSize.2) ∧
    (∀ (cells : List Cell) (opts : GridConfig) (g' : Grid),
      g'.opts = (Grid.new cells opts).opts →
      g'.cells.Nonempty →
      g'.naturalSize.1 ≤ g'.opts.min_width → g'.naturalSize.2 ≤ g'.opts.min_height →
      g'.opts.min_width < 2 ^ 63 → g'.opts.min_height < 2 ^ 63 →
      g'.viewportCentered.2.1 - g'.viewportCentered.1.1 + 1 = (g'.opts.min_width : ℤ) ∧
        (Grid.new cells opts).naturalSize.1 ≤ g'.opts.min_width) := by
  refine ⟨fun cells opts => ⟨rfl, rfl⟩, fun grid gopts => ⟨rfl, rfl⟩, ?_⟩
  intro cells opts g' hopts _ hw hh hmw hmh
  constructor
  · have hdx := toI64_u64sub g'.opts.min_width g'.naturalSize.1 hw hmw
    have hdx0 : (0 : ℤ) ≤ (g'.opts.min_width : ℤ) - (g'.naturalSize.1 : ℤ) := by
      have := hw
      omega
    obtain ⟨hsx, _, _, hsx3⟩ := splitInt_nonneg _ hdx0
    have hnat := (naturalSize_int g').1
    rw [viewportCentered_eq g', hdx, hsx]
    simp only []
    omega
  · have hmin : (Grid.new cells opts).opts.min_width
        = max opts.min_width (Grid.new cells opts).naturalSize.1 := rfl
    rw [hopts, hmin]
    exact le_max_right _ _

/-- C10 witness: build from `{(0,0),(4,0)}` (natural width 5, raising the
requested minimum 0 to 5), kill `(4,0)` so the population shrinks to a single
cell, and apply the theorem: the Centered viewport still spans width 5. -/
theorem c10_witness :
    (((Grid.new [(0, 0), (4, 0)] cfgA).setDead (4, 0)).1.viewportCentered.2.1
        - ((Grid.new [(0, 0), (4, 0)] cfgA).setDead (4, 0)).1.viewportCentered.1.1 + 1
      = ((((Grid.new [(0, 0), (4, 0)] cfgA).setDead (4, 0)).1.opts.min_width : ℤ))) ∧
      (Grid.new [(0, 0), (4, 0)] cfgA).naturalSize.1
        ≤ ((Grid.new [(0, 0), (4, 0)] cfgA).setDead (4, 0)).1.opts.min_width :=
  c10_constructors_raise_min_dimensions.2.2 [(0, 0), (4, 0)] cfgA
    ((Grid.new [(0, 0), (4, 0)] cfgA).setDead (4, 0)).1
    (by decide) (by decide) (by decide) (by decide) (by decide) (by decide)

/-- C5: the code, evaluated. The claim (and the spec) say Cell parsing is
total and never panics; but on the empty string — whose opening parenthesis
is "missing", so the spec requires a ParseError — `from_str` calls
`s.trim().split_at(1)`, which panics with a byte-index-out-of-bounds, and on
the sole character `"("` the expression `rest.len() - 1` underflows `usize`
(`none` models these panics). The accepted form and the documented error
cases otherwise behave as claimed, as the remaining evaluations show. -/
theorem c5_cell_parse_panics_on_empty_input :
    cellFromStr [] = none ∧
    cellFromStr ['('] = none ∧
    cellFromStr ['(', '-', '4', ',', ' ', '9', ')'] = some (Except.ok (-4, 9)) ∧
    cellFromStr [' ', '(', '3', ',', '4', ')', ' '] = some (Except.ok (3, 4)) ∧
    cellFromStr ['(', 'a', ',', '4', ')'] = some (Except.error CellErr.intErr) ∧
    cellFromStr ['(', '4', ')'] = some (Except.error CellErr.missingY) ∧
    cellFromStr ['x', '4', ')'] = some (Except.error (CellErr.unexpected 'x')) :=
  ⟨rfl, rfl, rfl, rfl, rfl, rfl, rfl⟩

/-! Characterisation of the pattern-parsing loops (for C8 and C4). -/

/-- On a line whose characters are all glyphs, the row loop succeeds and
returns exactly the cells at the alive-glyph columns (offset by the starting
column `x`). -/
lemma parseRow_ok (alive dead : Char) (y : Nat) (l : List Char)
    (hval : ∀ ch ∈ l, ch = alive ∨ ch = dead) :
    ∀ x : Nat, ∃ cs, parseRow alive dead y l x = Except.ok cs ∧
      ∀ p : Cell, p ∈ cs ↔
        ∃ i : Nat, l[i]? = some alive ∧ p = (((x + i : Nat) : ℤ), (y : ℤ)) := by
  induction l with
  | nil =>
    intro x
    refine ⟨[], rfl, ?_⟩
    intro p
    simp
  | cons ch rest ih =>
    intro x
    have hrest : ∀ c ∈ rest, c = alive ∨ c = dead :=
      fun c hc => hval c (List.mem_cons_of_mem _ hc)
    obtain ⟨cs, hcs, hmem⟩ := ih hrest (x + 1)
    by_cases hch : ch = alive
    · refine ⟨(((x : Nat) : ℤ), (y : ℤ)) :: cs, by simp [parseRow, hch, hcs], ?_⟩
      intro p
      simp only [List.mem_cons, hmem]
      constructor
      · rintro (rfl | ⟨i, hi, rfl⟩)
        · exact ⟨0, by simp [hch], by simp⟩
        · refine ⟨i + 1, by simpa using hi, ?_⟩
          rw [show x + (i + 1) = x + 1 + i from by omega]
      · rintro ⟨i, hi, rfl⟩
        cases i with
        | zero =>
          left
          simp
        | succ j =>
          right
          refine ⟨j, by simpa using hi, ?_⟩
          rw [show x + (j + 1) = x + 1 + j from by omega]
    · have hdead : ch = dead := (hval ch (List.mem_cons_self _ _)).resolve_left hch
      refine ⟨cs, by simp only [parseRow]; rw [if_neg hch, if_pos hdead]; exact hcs, ?_⟩
      intro p
      rw [hmem p]
      constructor
      · rintro ⟨i, hi, rfl⟩
        refine ⟨i + 1, by simpa using hi, ?_⟩
        rw [show x + (i + 1) = x + 1 + i from by omega]
      · rintro ⟨i, hi, rfl⟩
        cases i with
        | zero =>
          exfalso
          apply hch
          simpa using hi
        | succ j =>
          refine ⟨j, by simpa using hi, ?_⟩
          rw [show x + (j + 1) = x + 1 + j from by omega]

/-- On a line containing a non-glyph character, the row loop fails and the
reported character is a non-glyph character of the line. -/
lemma parseRow_err (alive dead : Char) (y : Nat) (l : List Char)
    (hbad : ∃ ch ∈ l, ch ≠ alive ∧ ch ≠ dead) :
    ∀ x : Nat, ∃ ch, parseRow alive dead y l x = Except.error ch ∧
      ch ∈ l ∧ ch ≠ alive ∧ ch ≠ dead := by
  induction l with
  | nil =>
    obtain ⟨ch, hch, _⟩ := hbad
    cases hch
  | cons ch rest ih =>
    intro x
    by_cases hch : ch = alive
    · have hbadr : ∃ c ∈ rest, c ≠ alive ∧ c ≠ dead := by
        obtain ⟨c, hc, hne⟩ := hbad
        rcases List.mem_cons.1 hc with rfl | hcr
        · exact absurd hch hne.1
        · exact ⟨c, hcr, hne⟩
      obtain ⟨e, he, hmem, hne⟩ := ih hbadr (x + 1)
      exact ⟨e, by simp [parseRow, hch, he], List.mem_cons_of_mem _ hmem, hne⟩
    · by_cases hchd : ch = dead
      · have hbadr : ∃ c ∈ rest, c ≠ alive ∧ c ≠ dead := by
          obtain ⟨c, hc, hne⟩ := hbad
          rcases List.mem_cons.1 hc with rfl | hcr
          · exact absurd hchd hne.2
          · exact ⟨c, hcr, hne⟩
        obtain ⟨e, he, hmem, hne⟩ := ih hbadr (x + 1)
        exact ⟨e, by simp only [parseRow]; rw [if_neg hch, if_pos hchd]; exact he,
          List.mem_cons_of_mem _ hmem, hne⟩
      · exact ⟨ch, by simp [parseRow, hch, hchd], List.mem_cons_self _ _, hch, hchd⟩

/-- On rows whose characters are all glyphs, the outer loop succeeds and
returns exactly the cells at `(column, row)` of each alive glyph, rows
counted from the starting row `y`. -/
lemma parseRows_ok (alive dead : Char) (rows : List (List Char))
    (hval : ∀ l ∈ rows, ∀ ch ∈ l, ch = alive ∨ ch = dead) :
    ∀ y : Nat, ∃ cs, parseRows alive dead rows y = Except.ok cs ∧
      ∀ p : Cell, p ∈ cs ↔
        ∃ j : Nat, ∃ r, rows[j]? = some r ∧
          ∃ i : Nat, r[i]? = some alive ∧ p = ((i : ℤ), ((y + j : Nat) : ℤ)) := by
  induction rows with
  | nil =>
    intro y
    refine ⟨[], rfl, ?_⟩
    intro p
    simp
  | cons l rest ih =>
    intro y
    have hl : ∀ ch ∈ l, ch = alive ∨ ch = dead := hval l (List.mem_cons_self _ _)
    have hrest : ∀ r ∈ rest, ∀ ch ∈ r, ch = alive ∨ ch = dead :=
      fun r hr => hval r (List.mem_cons_of_mem _ hr)
    obtain ⟨cs1, hcs1, hmem1⟩ := parseRow_ok alive dead y l hl 0
    obtain ⟨cs2, hcs2, hmem2⟩ := ih hrest (y + 1)
    refine ⟨cs1 ++ cs2, by simp [parseRows, hcs1, hcs2], ?_⟩
    intro p
    rw [List.mem_append, hmem1 p, hmem2 p]
    constructor
    · rintro (⟨i, hi, rfl⟩ | ⟨j, r, hr, i, hi, rfl⟩)
      · exact ⟨0, l, by simp, i, hi, by simp⟩
      · refine ⟨j + 1, r, by simpa using hr, i, hi, ?_⟩
        rw [show y + (j + 1) = y + 1 + j from by omega]
    · rintro ⟨j, r, hr, i, hi, rfl⟩
      cases j with
      | zero =>
        left
        have hlr : l = r := by simpa using hr
        subst hlr
        exact ⟨i, hi, by simp⟩
      | succ k =>
        right
        refine ⟨k, r, by simpa using hr, i, hi, ?_⟩
        rw [show y + (k + 1) = y + 1 + k from by omega]

/-- If some row contains a non-glyph character, the outer loop fails and the
reported character is a non-glyph character of some row. -/
lemma parseRows_err (alive dead : Char) (rows : List (List Char))
    (hbad : ∃ l ∈ rows, ∃ ch ∈ l, ch ≠ alive ∧ ch ≠ dead) :
    ∀ y : Nat, ∃ ch, parseRows alive dead rows y = Except.error ch ∧
      ch ≠ alive ∧ ch ≠ dead ∧ ∃ l ∈ rows, ch ∈ l := by
  induction rows with
  | nil =>
    obtain ⟨l, hl, _⟩ := hbad
    cases hl
  | cons l rest ih =>
    intro y
    by_cases hlbad : ∃ ch ∈ l, ch ≠ alive ∧ ch ≠ dead
    · obtain ⟨e, he, hmem, hne1, hne2⟩ := parseRow_err alive dead y l hlbad 0
      exact ⟨e, by simp [parseRows, he], hne1, hne2, l, List.mem_cons_self _ _, hmem⟩
    · have hl : ∀ ch ∈ l, ch = alive ∨ ch = dead := by
        intro ch hch
        by_contra hcon
        push_neg at hcon
        exact hlbad ⟨ch, hch, hcon.1, hcon.2⟩
      have hbadr : ∃ r ∈ rest, ∃ ch ∈ r, ch ≠ alive ∧ ch ≠ dead := by
        obtain ⟨r, hr, hch⟩ := hbad
        rcases List.mem_cons.1 hr with rfl | hrr
        · exact absurd hch hlbad
        · exact ⟨r, hrr, hch⟩
      obtain ⟨cs1, hcs1, _⟩ := parseRow_ok alive dead y l hl 0
      obtain ⟨e, he, hne1, hne2, r, hr, hmem⟩ := ih hbadr (y + 1)
      exact ⟨e, by simp [parseRows, hcs1, he], hne1, hne2, r,
        List.mem_cons_of_mem _ hr, hmem⟩

/-- C8 counterexample: the claim fails as stated. With glyphs `'x'`/`'.'`,
the pattern `"x "` contains the character `' '`, which is neither glyph, yet
parsing succeeds (with live set `{(0,0)}`) instead of failing with a
ParseError: the whole pattern is passed through `str::trim` before the
character scan, so surrounding whitespace is silently dropped. -/
theorem c8_counterexample :
    (' ' ∈ ({ cfgA with pattern := ['x', ' '] } : GridConfig).pattern ∧
      ' ' ≠ ({ cfgA with pattern := ['x', ' '] } : GridConfig).char_alive ∧
      ' ' ≠ ({ cfgA with pattern := ['x', ' '] } : GridConfig).char_dead) ∧
    Grid.fromConfig { cfgA with pattern := ['x', ' '] }
      = Except.ok (Grid.new [(0, 0)] { cfgA with pattern := ['x', ' '] }) :=
  ⟨by decide, rfl⟩

/-- C8 (amended): for every configuration, consider the processed pattern
text — the pattern trimmed of surrounding whitespace, split into lines (with
a trailing `'\r'` of a `"\r\n"` terminator stripped), with every line
beginning with `'#'` skipped. If every remaining character is one of the two
glyphs, parsing succeeds and the live set is exactly the set of
`(column, row)` positions that hold the alive glyph, with row 0 the topmost
non-skipped processed line; otherwise parsing fails with a ParseError
identifying an unexpected (non-glyph) character of the processed text, and no
grid is returned. (As stated originally the claim is false: characters in the
whitespace trimmed from the ends of the raw pattern — which are neither glyph
— do not make parsing fail; see the counterexample.) -/
theorem c8_pattern_parsing_amended :
    ∀ cfg : GridConfig,
      ((∀ l ∈ processedLines cfg, ∀ ch ∈ l, ch = cfg.char_alive ∨ ch = cfg.char_dead) →
        ∃ g : Grid, Grid.fromConfig cfg = Except.ok g ∧
          ∀ p : Cell, p ∈ g.cells ↔
            ∃ j : Nat, ∃ r, (processedLines cfg)[j]? = some r ∧
              ∃ i : Nat, r[i]? = some cfg.char_alive ∧ p = ((i : ℤ), (j : ℤ))) ∧
      ((∃ l ∈ processedLines cfg, ∃ ch ∈ l, ch ≠ cfg.char_alive ∧ ch ≠ cfg.char_dead) →
        ∃ ch : Char, Grid.fromConfig cfg = Except.error ch ∧
          ch ≠ cfg.char_alive ∧ ch ≠ cfg.char_dead ∧ ∃ l ∈ processedLines cfg, ch ∈ l) := by
  intro cfg
  constructor
  · intro hval
    obtain ⟨cs, hcs, hmem⟩ := parseRows_ok cfg.char_alive cfg.char_dead
      (processedLines cfg) hval 0
    refine ⟨Grid.new cs cfg, by simp [Grid.fromConfig, hcs], ?_⟩
    intro p
    have hcells : (Grid.new cs cfg).cells = cs.toFinset := rfl
    rw [hcells, List.mem_toFinset, hmem p]
    simp
  · intro hbad
    obtain ⟨e, he, hne1, hne2, hl⟩ := parseRows_err cfg.char_alive cfg.char_dead
      (processedLines cfg) hbad 0
    exact ⟨e, by simp [Grid.fromConfig, he], hne1, hne2, hl⟩

/-- C8 witness: the success branch on the pattern `"x.\n#c\n.x"` (the comment
line is skipped and consumes no row index) and the failure branch on the
pattern `"x!"`. -/
theorem c8_witness :
    (∃ g : Grid,
      Grid.fromConfig { cfgA with pattern := ['x', '.', '\n', '#', 'c', '\n', '.', 'x'] }
        = Except.ok g ∧
      ∀ p : Cell, p ∈ g.cells ↔
        ∃ j : Nat, ∃ r,
          (processedLines
            { cfgA with pattern := ['x', '.', '\n', '#', 'c', '\n', '.', 'x'] })[j]?
            = some r ∧
          ∃ i : Nat, r[i]?
            = some ({ cfgA with
                pattern := ['x', '.', '\n', '#', 'c', '\n', '.', 'x'] } : GridConfig).char_alive ∧
            p = ((i : ℤ), (j : ℤ))) ∧
    (∃ ch : Char,
      Grid.fromConfig { cfgA with pattern := ['x', '!'] } = Except.error ch ∧
        ch ≠ ({ cfgA with pattern := ['x', '!'] } : GridConfig).char_alive ∧
        ch ≠ ({ cfgA with pattern := ['x', '!'] } : GridConfig).char_dead ∧
        ∃ l ∈ processedLines { cfgA with pattern := ['x', '!'] }, ch ∈ l) :=
  ⟨(c8_pattern_parsing_amended
      { cfgA with pattern := ['x', '.', '\n', '#', 'c', '\n', '.', 'x'] }).1 (by decide),
   (c8_pattern_parsing_amended { cfgA with pattern := ['x', '!'] }).2 (by decide)⟩

/-! List utilities for the render/parse round trip (C4). -/

/-- Membership in an inclusive integer range. -/
lemma mem_intRange (a b z : ℤ) : z ∈ intRange a b ↔ a ≤ z ∧ z ≤ b := by
  simp only [intRange, List.mem_map, List.mem_range]
  constructor
  · rintro ⟨i, hi, rfl⟩
    omega
  · intro h
    refine ⟨(z - a).toNat, by omega, by omega⟩

/-- Indexing an inclusive integer range. -/
lemma getElem?_intRange (a b : ℤ) (j : Nat) (hj : j < (b + 1 - a).toNat) :
    (intRange a b)[j]? = some (a + (j : ℤ)) := by
  simp only [intRange, List.getElem?_map, List.getElem?_range hj, Option.map_some']

/-- An inclusive integer range is nonempty when its endpoints are ordered. -/
lemma intRange_ne_nil (a b : ℤ) (h : a ≤ b) : intRange a b ≠ [] := by
  have : b ∈ intRange a b := (mem_intRange a b b).2 ⟨h, le_refl b⟩
  intro hnil
  rw [hnil] at this
  cases this

/-- A segment list without the separator splits to itself. -/
lemma splitOnChar_no_sep (sep : Char) (l : List Char) (h : ∀ ch ∈ l, ch ≠ sep) :
    splitOnChar sep l = [l] := by
  induction l with
  | nil => rfl
  | cons c rest ih =>
    have hc : c ≠ sep := h c (List.mem_cons_self _ _)
    have hr := ih (fun ch hch => h ch (List.mem_cons_of_mem _ hch))
    simp only [splitOnChar, if_neg hc, hr]

/-- Splitting a text of the form `xs ++ sep :: ys` with `sep ∉ xs` peels off
`xs` as the first segment. -/
lemma splitOnChar_append (sep : Char) (xs ys : List Char) (h : ∀ ch ∈ xs, ch ≠ sep) :
    splitOnChar sep (xs ++ sep :: ys) = xs :: splitOnChar sep ys := by
  induction xs with
  | nil => simp [splitOnChar]
  | cons c rest ih =>
    have hc : c ≠ sep := h c (List.mem_cons_self _ _)
    have hr := ih (fun ch hch => h ch (List.mem_cons_of_mem _ hch))
    simp only [List.cons_append, splitOnChar, if_neg hc, List.append_eq, hr]

/-- Trimming a text that ends in `'\n'` but otherwise starts and ends with
non-whitespace removes exactly that final newline. -/
lemma trimList_body_newline (body : List Char) (hb : body ≠ [])
    (h1 : ∀ ch, body.head? = some ch → isWS ch = false)
    (h2 : ∀ ch, body.getLast? = some ch → isWS ch = false) :
    trimList (body ++ ['\n']) = body := by
  obtain ⟨c, rest, rfl⟩ : ∃ c rest, body = c :: rest := by
    cases body with
    | nil => exact absurd rfl hb
    | cons c rest => exact ⟨c, rest, rfl⟩
  have hc : isWS c = false := h1 c rfl
  have hdrop : List.dropWhile isWS ((c :: rest) ++ ['\n']) = (c :: rest) ++ ['\n'] := by
    show List.dropWhile isWS (c :: (rest ++ ['\n'])) = c :: (rest ++ ['\n'])
    exact List.dropWhile_cons_of_neg (by simp [hc])
  rw [trimList, hdrop,
    show ((c :: rest) ++ ['\n']).reverse = '\n' :: (c :: rest).reverse from by simp,
    List.dropWhile_cons_of_pos (by simp [isWS])]
  cases hlast : (c :: rest).reverse with
  | nil => simp at hlast
  | cons d tail =>
    have hd : (c :: rest).getLast? = some d := by
      rw [← List.head?_reverse, hlast]
      rfl
    rw [List.dropWhile_cons_of_neg (by simp [h2 d hd]), ← hlast, List.reverse_reverse]

/-- Joining nonempty newline-free rows with a `'\n'` terminator each produces
a body-plus-final-newline whose body splits back into exactly the rows and
whose first and last characters are characters of some row. -/
lemma render_join_spec :
    ∀ rows : List (List Char), rows ≠ [] →
      (∀ r ∈ rows, r ≠ [] ∧ ∀ ch ∈ r, ch ≠ '\n') →
      ∃ body : List Char, (rows.map (fun r => r ++ ['\n'])).flatten = body ++ ['\n'] ∧
        body ≠ [] ∧
        splitLines body = rows ∧
        (∀ ch, body.head? = some ch → ∃ r ∈ rows, ch ∈ r) ∧
        (∀ ch, body.getLast? = some ch → ∃ r ∈ rows, ch ∈ r) := by
  intro rows
  induction rows with
  | nil => intro h _; exact absurd rfl h
  | cons r rows' ih =>
    intro _ hprop
    obtain ⟨hrne, hrnl⟩ := hprop r (List.mem_cons_self _ _)
    cases hrows' : rows' with
    | nil =>
      refine ⟨r, by simp, hrne, splitOnChar_no_sep '\n' r hrnl, ?_, ?_⟩
      · intro ch hch
        exact ⟨r, List.mem_cons_self _ _, List.mem_of_mem_head? hch⟩
      · intro ch hch
        exact ⟨r, List.mem_cons_self _ _, List.mem_of_mem_getLast? hch⟩
    | cons r2 rows'' =>
      rw [← hrows']
      have hne' : rows' ≠ [] := by
        rw [hrows']
        exact List.cons_ne_nil _ _
      obtain ⟨body', hflat, hbne, hsplit, hhead, hlast⟩ :=
        ih hne' (fun s hs => hprop s (List.mem_cons_of_mem _ hs))
      refine ⟨r ++ '\n' :: body', ?_, by simp, ?_, ?_, ?_⟩
      · rw [List.map_cons, List.flatten_cons, hflat]
        simp
      · rw [splitLines, splitOnChar_append '\n' r body' hrnl]
        exact congrArg (List.cons r) hsplit
      · intro ch hch
        obtain ⟨c, rest, rfl⟩ : ∃ c rest, r = c :: rest := by
          cases r with
          | nil => exact absurd rfl hrne
          | cons c rest => exact ⟨c, rest, rfl⟩
        simp only [List.cons_append, List.head?_cons, Option.some.injEq] at hch
        subst hch
        exact ⟨c :: rest, List.mem_cons_self _ _, List.mem_cons_self _ _⟩
      · intro ch hch
        obtain ⟨b, bs, rfl⟩ : ∃ b bs, body' = b :: bs := by
          cases body' with
          | nil => exact absurd rfl hbne
          | cons b bs => exact ⟨b, bs, rfl⟩
        rw [List.getLast?_append, List.getLast?_cons_cons,
          List.getLast?_eq_getLast (b :: bs) (by simp)] at hch
        simp only [Option.or_some, Option.some.injEq] at hch
        obtain ⟨s, hs, hmem⟩ := hlast ch (by
          rw [List.getLast?_eq_getLast (b :: bs) (by simp), hch])
        exact ⟨s, List.mem_cons_of_mem _ hs, hmem⟩

/-- `str::lines` on a text whose segments are exactly `rows`, with the last
row nonempty (no trailing line terminator) and no carriage returns anywhere,
returns exactly `rows`. -/
lemma rustLines_eq (s : List Char) (rows : List (List Char))
    (hsplit : splitLines s = rows)
    (hlast : ∃ lr, rows.getLast? = some lr ∧ lr ≠ [])
    (hcr : ∀ r ∈ rows, '\r' ∉ r) :
    rustLines s = rows := by
  obtain ⟨lr, hlr, hlrne⟩ := hlast
  obtain ⟨x, xs, rfl⟩ : ∃ x xs, lr = x :: xs := by
    cases lr with
    | nil => exact absurd rfl hlrne
    | cons x xs => exact ⟨x, xs, rfl⟩
  have hrne : rows ≠ [] := by
    intro h
    rw [h] at hlr
    cases hlr
  have hmap : rows.dropLast.map stripCR = rows.dropLast := by
    have h1 : ∀ r ∈ rows.dropLast, stripCR r = r := by
      intro r hr
      have hrmem : r ∈ rows := List.dropLast_subset _ hr
      rw [stripCR, if_neg]
      intro hcrlast
      exact hcr r hrmem (List.mem_of_mem_getLast? (by rw [hcrlast]; rfl))
    calc rows.dropLast.map stripCR = rows.dropLast.map id := List.map_congr_left h1
    _ = rows.dropLast := List.map_id _
  have hgl : rows.getLast hrne = x :: xs := by
    have := List.getLast?_eq_getLast rows hrne
    rw [this] at hlr
    exact Option.some_injective _ hlr
  rw [rustLines, hsplit, hlr]
  show rows.dropLast.map stripCR ++ [x :: xs] = rows
  rw [hmap, ← hgl, List.dropLast_append_getLast hrne]

/-- C4 counterexample: the claim fails as stated. The grid with the single
live cell `(1,1)` (standard glyphs, Centered view) has Centered viewport
`((1,1),(1,1))`, which contains every live cell; it renders as `"x\n"`, and
re-parsing that text with the same glyphs yields the live set `{(0,0)}` —
parsing anchors row 0 / column 0 at the top-left of the text, so the live set
comes back translated by the viewport origin, not equal. -/
theorem c4_counterexample :
    (Grid.new [(1, 1)] cfgA).opts.view = View.Centered ∧
    (Grid.new [(1, 1)] cfgA).cells = ({(1, 1)} : Finset Cell) ∧
    (Grid.new [(1, 1)] cfgA).viewportCentered = ((1, 1), (1, 1)) ∧
    (Grid.new [(1, 1)] cfgA).display = some ['x', '\n'] ∧
    Grid.fromConfig { (Grid.new [(1, 1)] cfgA).opts with pattern := ['x', '\n'] }
      = Except.ok (Grid.new [(0, 0)]
          { (Grid.new [(1, 1)] cfgA).opts with pattern := ['x', '\n'] }) ∧
    (Grid.new [(0, 0)] { (Grid.new [(1, 1)] cfgA).opts with pattern := ['x', '\n'] }).cells
      = ({(0, 0)} : Finset Cell) ∧
    ({(0, 0)} : Finset Cell) ≠ ({(1, 1)} : Finset Cell) :=
  ⟨rfl, by decide, by decide, by decide, rfl, by decide, by decide⟩

/-- C4 (amended): for every nonempty grid in Centered view with distinct,
non-whitespace, non-`'#'` glyphs whose Centered viewport contains all live
cells, rendering succeeds and re-parsing the rendered text with the same
configuration yields a grid whose live-cell set is the original live set
translated by the negation of the viewport origin (so the sets are equal
exactly when the viewport origin is `(0,0)`). (As stated originally — "the
same live-cell set" — the claim is false, because parsing anchors the pattern
at `(0,0)` while rendering starts at the viewport origin; see the
counterexample.) -/
theorem c4_render_parse_roundtrip_amended :
    ∀ g : Grid,
      g.opts.view = View.Centered →
      g.cells.Nonempty →
      g.opts.char_alive ≠ g.opts.char_dead →
      g.opts.char_alive.isWhitespace = false →
      g.opts.char_dead.isWhitespace = false →
      g.opts.char_alive ≠ '#' →
      g.opts.char_dead ≠ '#' →
      (∀ c ∈ g.cells,
        g.viewportCentered.1.1 ≤ c.1 ∧ c.1 ≤ g.viewportCentered.2.1 ∧
          g.viewportCentered.1.2 ≤ c.2 ∧ c.2 ≤ g.viewportCentered.2.2) →
      g.display = some (renderRect g g.viewportCentered) ∧
      ∃ g2 : Grid,
        Grid.fromConfig { g.opts with pattern := renderRect g g.viewportCentered }
          = Except.ok g2 ∧
        g2.cells = g.cells.image
          (fun c => (c.1 - g.viewportCentered.1.1, c.2 - g.viewportCentered.1.2)) := by
  intro g hview hne hglyph hwsa hwsd hhasha hhashd hcont
  have hdisp : g.display = some (renderRect g g.viewportCentered) := by
    simp [Grid.display, Grid.viewportOpt, hview]
  refine ⟨hdisp, ?_⟩
  rcases hv : g.viewportCentered with ⟨⟨vx0, vy0⟩, vx1, vy1⟩
  rw [hv] at hcont
  dsimp only at hcont
  have hxy : vy0 ≤ vy1 ∧ vx0 ≤ vx1 := by
    obtain ⟨c0, hc0⟩ := hne
    have h := hcont c0 hc0
    exact ⟨by omega, by omega⟩
  set rows : List (List Char) :=
    (intRange vy0 vy1).map (fun y => (intRange vx0 vx1).map
      (fun x => if g.isAlive (x, y) = true then g.opts.char_alive else g.opts.char_dead))
    with hrows
  have hany : g.opts.char_alive ≠ '\n' ∧ g.opts.char_dead ≠ '\n' ∧
      g.opts.char_alive ≠ '\r' ∧ g.opts.char_dead ≠ '\r' := by
    refine ⟨fun h => ?_, fun h => ?_, fun h => ?_, fun h => ?_⟩
    · rw [h] at hwsa
      exact absurd hwsa (by decide)
    · rw [h] at hwsd
      exact absurd hwsd (by decide)
    · rw [h] at hwsa
      exact absurd hwsa (by decide)
    · rw [h] at hwsd
      exact absurd hwsd (by decide)
  have hrmem : ∀ r ∈ rows, ∃ y : ℤ, r = (intRange vx0 vx1).map
      (fun x => if g.isAlive (x, y) = true then g.opts.char_alive else g.opts.char_dead) := by
    intro r hr
    rw [hrows] at hr
    obtain ⟨y, _, rfl⟩ := List.mem_map.1 hr
    exact ⟨y, rfl⟩
  have hchars : ∀ r ∈ rows, ∀ ch ∈ r,
      ch = g.opts.char_alive ∨ ch = g.opts.char_dead := by
    intro r hr ch hch
    obtain ⟨y, rfl⟩ := hrmem r hr
    obtain ⟨x, _, rfl⟩ := List.mem_map.1 hch
    by_cases h : g.isAlive (x, y) = true
    · left
      rw [if_pos h]
    · right
      rw [if_neg h]
  have hrne : ∀ r ∈ rows, r ≠ [] := by
    intro r hr
    obtain ⟨y, rfl⟩ := hrmem r hr
    rw [Ne, List.map_eq_nil_iff]
    exact intRange_ne_nil vx0 vx1 hxy.2
  have hrowsne : rows ≠ [] := by
    rw [hrows, Ne, List.map_eq_nil_iff]
    exact intRange_ne_nil vy0 vy1 hxy.1
  obtain ⟨body, hflat, hbne, hsplitb, hheadb, hlastb⟩ :=
    render_join_spec rows hrowsne (by
      intro r hr
      refine ⟨hrne r hr, ?_⟩
      intro ch hch
      rcases hchars r hr ch hch with h | h <;> rw [h]
      · exact hany.1
      · exact hany.2.1)
  have hrender : renderRect g ((vx0, vy0), (vx1, vy1)) = body ++ ['\n'] := by
    rw [← hflat, hrows]
    simp only [renderRect, List.map_map]
    rfl
  have hws : ∀ ch : Char, (∃ r ∈ rows, ch ∈ r) → isWS ch = false := by
    rintro ch ⟨r, hr, hm⟩
    rcases hchars r hr ch hm with h | h <;> rw [h]
    · exact hwsa
    · exact hwsd
  have htrim : trimList (body ++ ['\n']) = body :=
    trimList_body_newline body hbne
      (fun ch hch => hws ch (hheadb ch hch))
      (fun ch hch => hws ch (hlastb ch hch))
  have hlines : rustLines body = rows := by
    refine rustLines_eq body rows hsplitb
      ⟨rows.getLast hrowsne, List.getLast?_eq_getLast rows hrowsne,
        hrne _ (List.getLast_mem hrowsne)⟩ ?_
    intro r hr hmem
    rcases hchars r hr '\r' hmem with h | h
    · exact hany.2.2.1 h.symm
    · exact hany.2.2.2 h.symm
  have hproc : processedLines { g.opts with pattern := renderRect g ((vx0, vy0), (vx1, vy1)) }
      = rows := by
    rw [processedLines]
    show (rustLines (trimList (renderRect g ((vx0, vy0), (vx1, vy1))))).filter _ = rows
    rw [hrender, htrim, hlines, List.filter_eq_self]
    intro r hr
    obtain ⟨c, rest, hcr⟩ : ∃ c rest, r = c :: rest := by
      cases hr2 : r with
      | nil => exact absurd hr2 (hrne r hr)
      | cons c rest => exact ⟨c, rest, rfl⟩
    have hcne : c ≠ '#' := by
      rcases hchars r hr c (by rw [hcr]; exact List.mem_cons_self _ _) with h | h <;> rw [h]
      · exact hhasha
      · exact hhashd
    rw [hcr]
    simp [hcne]
  obtain ⟨cs, hcs, hmem⟩ := parseRows_ok g.opts.char_alive g.opts.char_dead rows hchars 0
  have hfrom : Grid.fromConfig { g.opts with pattern := renderRect g ((vx0, vy0), (vx1, vy1)) }
      = Except.ok (Grid.new cs
          { g.opts with pattern := renderRect g ((vx0, vy0), (vx1, vy1)) }) := by
    rw [Grid.fromConfig]
    show (match parseRows g.opts.char_alive g.opts.char_dead
        (processedLines { g.opts with pattern := renderRect g ((vx0, vy0), (vx1, vy1)) }) 0 with
      | Except.error e => Except.error e
      | Except.ok cs2 => Except.ok (Grid.new cs2
          { g.opts with pattern := renderRect g ((vx0, vy0), (vx1, vy1)) })) = _
    rw [hproc, hcs]
  refine ⟨Grid.new cs { g.opts with pattern := renderRect g ((vx0, vy0), (vx1, vy1)) },
    hfrom, ?_⟩
  have hcells : (Grid.new cs
      { g.opts with pattern := renderRect g ((vx0, vy0), (vx1, vy1)) }).cells
      = cs.toFinset := rfl
  rw [hcells]
  apply Finset.ext
  intro p
  rw [List.mem_toFinset, hmem p, Finset.mem_image]
  constructor
  · rintro ⟨j, r, hjr, i, hia, rfl⟩
    have hjlen : j < rows.length := by
      by_contra hge
      rw [List.getElem?_eq_none (by omega)] at hjr
      cases hjr
    have hjH : j < (vy1 + 1 - vy0).toNat := by
      rw [hrows] at hjlen
      simpa [intRange] using hjlen
    have hjr' : rows[j]? = some ((intRange vx0 vx1).map
        (fun x => if g.isAlive (x, vy0 + (j : ℤ)) = true
          then g.opts.char_alive else g.opts.char_dead)) := by
      rw [hrows, List.getElem?_map, getElem?_intRange vy0 vy1 j hjH]
      rfl
    rw [hjr'] at hjr
    have hreq := Option.some_injective _ hjr
    subst hreq
    have hilen : i < (vx1 + 1 - vx0).toNat := by
      by_contra hge
      rw [List.getElem?_eq_none (by simp [intRange]; omega)] at hia
      cases hia
    rw [List.getElem?_map, getElem?_intRange vx0 vx1 i hilen] at hia
    simp only [Option.map_some', Option.some.injEq] at hia
    have halive : g.isAlive (vx0 + (i : ℤ), vy0 + (j : ℤ)) = true := by
      by_cases h : g.isAlive (vx0 + (i : ℤ), vy0 + (j : ℤ)) = true
      · exact h
      · rw [if_neg h] at hia
        exact absurd hia.symm hglyph
    refine ⟨(vx0 + (i : ℤ), vy0 + (j : ℤ)), (isAlive_iff g _).1 halive, ?_⟩
    refine Prod.ext ?_ ?_ <;> dsimp only <;> push_cast <;> omega
  · rintro ⟨c, hc, rfl⟩
    have hco := hcont c hc
    refine ⟨(c.2 - vy0).toNat,
      (intRange vx0 vx1).map (fun x =>
        if g.isAlive (x, vy0 + (((c.2 - vy0).toNat : ℕ) : ℤ)) = true
          then g.opts.char_alive else g.opts.char_dead),
      ?_, (c.1 - vx0).toNat, ?_, ?_⟩
    · rw [hrows, List.getElem?_map, getElem?_intRange vy0 vy1 _ (by omega)]
      rfl
    · rw [List.getElem?_map, getElem?_intRange vx0 vx1 _ (by omega)]
      have hcc : ((vx0 + (((c.1 - vx0).toNat : ℕ) : ℤ)),
          (vy0 + (((c.2 - vy0).toNat : ℕ) : ℤ))) = c := by
        refine Prod.ext ?_ ?_ <;> dsimp only <;> omega
      rw [Option.map_some']
      show some (if g.isAlive (vx0 + (((c.1 - vx0).toNat : ℕ) : ℤ),
        vy0 + (((c.2 - vy0).toNat : ℕ) : ℤ)) = true
          then g.opts.char_alive else g.opts.char_dead) = some g.opts.char_alive
      rw [hcc, if_pos ((isAlive_iff g c).2 hc)]
    · refine Prod.ext ?_ ?_ <;> dsimp only <;> push_cast <;> omega

/-- C4 witness: the amended round trip at the single-cell grid `{(1,1)}` —
whose re-parsed live set is the translate `{(0,0)}` of the original. -/
theorem c4_witness :
    (Grid.new [(1, 1)] cfgA).display
        = some (renderRect (Grid.new [(1, 1)] cfgA)
            (Grid.new [(1, 1)] cfgA).viewportCentered) ∧
      ∃ g2 : Grid,
        Grid.fromConfig { (Grid.new [(1, 1)] cfgA).opts with
            pattern := renderRect (Grid.new [(1, 1)] cfgA)
              (Grid.new [(1, 1)] cfgA).viewportCentered }
          = Except.ok g2 ∧
        g2.cells = (Grid.new [(1, 1)] cfgA).cells.image
          (fun c => (c.1 - (Grid.new [(1, 1)] cfgA).viewportCentered.1.1,
            c.2 - (Grid.new [(1, 1)] cfgA).viewportCentered.1.2)) :=
  c4_render_parse_roundtrip_amended (Grid.new [(1, 1)] cfgA) rfl (by decide) (by decide)
    (by decide) (by decide) (by decide) (by decide) (by decide)

end Conway
